import Mathlib

/-!
Shallow embedding of `EqRADrive.ino`, the Arduino sketch driving a telescope
Right-Ascension tracking motor.

Modelling conventions:
- digital pin levels are `Bool` (`true` = HIGH = 1, `false` = LOW = 0);
- the C `int`/`byte` variables become `Int`/`Nat` (all values stay far from
  any machine-width bound, the only clamping in the source is explicit);
- C `float` arithmetic is modelled over `ℚ`.  Every theorem below that
  evaluates the float pipeline does so at inputs where the IEEE binary32
  computation of the source and the exact rational computation agree
  (the intermediate values are either exactly representable or far enough
  from a truncation boundary); the float-to-int casts of the source
  truncate toward zero, modelled by `truncF`;
- the hardware side effects (`digitalWrite`, `Timer1.pwm`) are modelled as
  latched output fields of the state (`motorPins`, `pwmOut`), `none` before
  the first write.
-/

/-- `COUNTLIMIT` of the source: upper clamp of the rotary count. -/
def COUNTLIMIT : Int := 2046

/-- `upMask` of the source (`enum { upMask = 0x66, downMask = 0x99 }`). -/
def upMask : Nat := 0x66

/-- The global state of the sketch that the claims touch.  `abOld` is the
static 2-bit previous encoder state (zero-initialized as a C static),
`count` the volatile rotary count, `pwmUpdateNeeded` the dirty flag,
`forward`/`stopped`/`speed2x`/`speedFull` the intent booleans,
`dutyCycle` the float duty-cycle percentage, and `motorPins`/`pwmOut`
the last values written to the direction pins and the PWM driver. -/
@[ext] structure SysState where
  abOld : Nat
  count : Int
  pwmUpdateNeeded : Bool
  forward : Bool
  stopped : Bool
  speed2x : Bool
  speedFull : Bool
  dutyCycle : ℚ
  motorPins : Option (Bool × Bool)
  pwmOut : Option Int
deriving DecidableEq, Repr

/-- `digitalRead` result of a pin level: HIGH reads as 1, LOW as 0. -/
def pinLevel (b : Bool) : Nat := if b then 1 else 0

/-- `byte abNew = (digitalRead(KY40_PIN_A) << 1) | digitalRead(KY40_PIN_B);` -/
def abNewOf (a b : Bool) : Nat := (pinLevel a <<< 1) ||| pinLevel b

/-- The encoder interrupt handler `pinChangeISR`, with the levels of pins
A and B at the time of the interrupt as inputs.  Mirrors the source line by
line: criterion test, up/down decision through `upMask`, save of `abNew`
into `abOld`, unconditional dirty-flag set, then the two clamping `if`s. -/
def pinChangeISR (a b : Bool) (s : SysState) : SysState :=
  let abNew := abNewOf a b
  let criterion := abNew ^^^ s.abOld
  let count0 :=
    if criterion = 1 ∨ criterion = 2 then
      if upMask &&& (1 <<< (2 * s.abOld + abNew / 2)) ≠ 0 then s.count + 1
      else s.count - 1
    else s.count
  let count1 := if count0 < 0 then 0 else count0
  let count2 := if count1 > COUNTLIMIT then COUNTLIMIT else count1
  { s with abOld := abNew, count := count2, pwmUpdateNeeded := true }

/-- C cast from `float` to `int`: truncation toward zero. -/
def truncF (q : ℚ) : Int := if 0 ≤ q then ⌊q⌋ else ⌈q⌉

/-- `forward = membraneButtonStatus[0] + membraneButtonStatus[1] >= 2;`
on the raw active-low levels of membrane buttons 1 and 2. -/
def forwardIntent (raw1 raw2 : Nat) : Bool := decide (raw1 + raw2 ≥ 2)

/-- `speed2x = membraneButtonStatus[1] + membraneButtonStatus[2] < 2;` -/
def speed2xIntent (raw2 raw3 : Nat) : Bool := decide (raw2 + raw3 < 2)

/-- `speedFull = membraneButtonStatus[0] + membraneButtonStatus[3] < 2;` -/
def speedFullIntent (raw1 raw4 : Nat) : Bool := decide (raw1 + raw4 < 2)

/-- The guarded output block of `loop` (lines 241-268): if the dirty flag is
set, clear it, drive the direction pins from `forward`/`stopped`, recompute
`dutyCycle = ((float) count*100) / ((float)COUNTLIMIT)`, derive
`int pwm_duty_cycle = (dutyCycle / 100) * 1023`, apply the `speed2x` /
`speedFull` overrides in the source's `if` / `else if` order, and emit the
PWM value; otherwise do nothing. -/
def outputStage (s : SysState) : SysState :=
  if s.pwmUpdateNeeded then
    let pins : Bool × Bool :=
      if s.forward then (false, true)
      else if ¬ s.stopped then (true, false)
      else (false, false)
    let duty : ℚ := ((s.count : ℚ) * 100) / ((COUNTLIMIT : Int) : ℚ)
    let base : Int := truncF ((duty / 100) * 1023)
    let pwm : Int := if s.speed2x then base * 2 else if s.speedFull then 1023 else base
    { s with pwmUpdateNeeded := false, motorPins := some pins,
             dutyCycle := duty, pwmOut := some pwm }
  else s

/-- One iteration of `loop`, fed with the current levels of the four
membrane buttons (active-low: `true` = 1 = unpressed).  Reads the buttons,
derives the three intents, raises the dirty flag on any intent change, then
runs the guarded output block.  (The display-toggle pushbutton and the
display refresh touch no state any claim mentions and are modelled
separately by `displayDigits` / `displayRender`.) -/
def loopStep (b1 b2 b3 b4 : Bool) (s : SysState) : SysState :=
  let f := forwardIntent (pinLevel b1) (pinLevel b2)
  let s2 := speed2xIntent (pinLevel b2) (pinLevel b3)
  let sF := speedFullIntent (pinLevel b1) (pinLevel b4)
  let dirty := s.pwmUpdateNeeded || (f != s.forward || s2 != s.speed2x || sF != s.speedFull)
  outputStage { s with forward := f, speed2x := s2, speedFull := sF,
                       pwmUpdateNeeded := dirty }

/-- The initial state after C static initialization and `setup()`:
`abOld` zero-initialized, `count = COUNTLIMIT / 13`, `pwmUpdateNeeded =
true`, `forward = true`, `stopped = false`, `speed2x = speedFull = false`,
`dutyCycle = 8.0f`; no output written yet. -/
def initSys : SysState :=
  { abOld := 0, count := COUNTLIMIT / 13, pwmUpdateNeeded := true,
    forward := true, stopped := false, speed2x := false, speedFull := false,
    dutyCycle := 8, motorPins := none, pwmOut := none }

/-- Run `pinChangeISR` over a list of (pin A, pin B) level pairs, one
invocation per pair, first pair first. -/
def runISR (s : SysState) : List (Bool × Bool) → SysState
  | [] => s
  | p :: ps => runISR (pinChangeISR p.1 p.2 s) ps

/-- An input event of the system: an encoder interrupt with the two pin
levels, or one main-loop iteration with the four button levels. -/
inductive Ev where
  | isr (a b : Bool)
  | loopIter (b1 b2 b3 b4 : Bool)
deriving DecidableEq, Repr

/-- Effect of one event on the state. -/
def step : Ev → SysState → SysState
  | Ev.isr a b, s => pinChangeISR a b s
  | Ev.loopIter b1 b2 b3 b4, s => loopStep b1 b2 b3 b4 s

/-- Run a sequence of events. -/
def runSys (s : SysState) : List Ev → SysState
  | [] => s
  | e :: es => runSys (step e s) es

/-- The 2-bit encoder state after `k` steps of the fixed "up" rotation
direction, starting from `abOld = 0`: the Gray cycle 0, 2, 3, 1, 0, ... -/
def upPhase (k : Nat) : Nat :=
  match k % 4 with
  | 0 => 0
  | 1 => 2
  | 2 => 3
  | _ => 1

/-- Pin levels fed to the ISR at step `k` of the fixed "up" rotation:
alternating single-bit changes of A and B producing `abNew = upPhase (k+1)`. -/
def upPinsAt (k : Nat) : Bool × Bool :=
  match k % 4 with
  | 0 => (true, false)
  | 1 => (true, true)
  | 2 => (false, true)
  | _ => (false, false)

/-- Run `n` ISR invocations of the fixed "up" rotation sequence. -/
def runUp (s : SysState) : Nat → SysState
  | 0 => s
  | n + 1 =>
    let p := upPinsAt n
    pinChangeISR p.1 p.2 (runUp s n)

/-- `display(float percentage)` digit extraction (lines 95-100): the four
truncating multiplications producing the digit array. -/
def displayDigits (p : ℚ) : List Int :=
  let firstDigit := truncF (p * 10)
  let secondDigit := truncF (p * 100 - firstDigit * 10)
  let thirdDigit := truncF (p * 1000 - (firstDigit * 100 + secondDigit * 10))
  let fourthDigit := truncF (p * 10000 - (firstDigit * 1000 + secondDigit * 100 + thirdDigit * 10))
  [firstDigit, secondDigit, thirdDigit, fourthDigit]

/-- The sequence of `displayNumber(digits[i], i, i == 1)` calls made by
`display`: for each position its digit and whether the decimal dot is lit. -/
def displayRender (p : ℚ) : List (Int × Bool) :=
  (List.range 4).map (fun i => ((displayDigits p).getD i 0, i == 1))

/-! ### General lemmas about the interrupt handler -/

/-- A single ISR invocation always leaves the count inside `[0, COUNTLIMIT]`,
whatever the previous state: the two clamping `if`s run unconditionally. -/
lemma pinChangeISR_count_bounds (a b : Bool) (s : SysState) :
    0 ≤ (pinChangeISR a b s).count ∧ (pinChangeISR a b s).count ≤ COUNTLIMIT := by
  simp only [pinChangeISR, COUNTLIMIT]
  refine ⟨?_, ?_⟩ <;> split_ifs <;> omega

/-- The ISR touches only `abOld`, `count` and the dirty flag. -/
lemma pinChangeISR_frame (a b : Bool) (s : SysState) :
    (pinChangeISR a b s).forward = s.forward ∧
    (pinChangeISR a b s).stopped = s.stopped ∧
    (pinChangeISR a b s).speed2x = s.speed2x ∧
    (pinChangeISR a b s).speedFull = s.speedFull ∧
    (pinChangeISR a b s).dutyCycle = s.dutyCycle ∧
    (pinChangeISR a b s).motorPins = s.motorPins ∧
    (pinChangeISR a b s).pwmOut = s.pwmOut :=
  ⟨rfl, rfl, rfl, rfl, rfl, rfl, rfl⟩

/-- The ISR sets the dirty flag unconditionally. -/
lemma pinChangeISR_dirty (a b : Bool) (s : SysState) :
    (pinChangeISR a b s).pwmUpdateNeeded = true := rfl

/-- Interval preservation along a whole run of ISR invocations. -/
lemma runISR_bounds (ps : List (Bool × Bool)) :
    ∀ s : SysState, 0 ≤ s.count → s.count ≤ COUNTLIMIT →
      0 ≤ (runISR s ps).count ∧ (runISR s ps).count ≤ COUNTLIMIT := by
  induction ps with
  | nil => intro s h0 h1; exact ⟨h0, h1⟩
  | cons p ps ih =>
    intro s _ _
    have hb := pinChangeISR_count_bounds p.1 p.2 s
    exact ih _ hb.1 hb.2

/-- C1: starting from the initial state, after any sequence of encoder
interrupt invocations with arbitrary pin levels, the shared count is in the
inclusive range `[0, COUNTLIMIT]`; no completed ISR mutation leaves it
outside that bound. -/
theorem isr_count_invariant (ps : List (Bool × Bool)) :
    0 ≤ (runISR initSys ps).count ∧ (runISR initSys ps).count ≤ COUNTLIMIT :=
  runISR_bounds ps initSys (by norm_num [initSys, COUNTLIMIT])
    (by norm_num [initSys, COUNTLIMIT])

/-- C2: an ISR invocation whose transition is invalid — the criterion
`abNew XOR abOld` is neither 1 nor 2 — leaves the count unchanged, provided
it was inside `[0, COUNTLIMIT]` before. -/
theorem invalid_transition_count_unchanged (a b : Bool) (s : SysState)
    (h0 : 0 ≤ s.count) (h1 : s.count ≤ COUNTLIMIT)
    (hcrit : abNewOf a b ^^^ s.abOld ≠ 1 ∧ abNewOf a b ^^^ s.abOld ≠ 2) :
    (pinChangeISR a b s).count = s.count := by
  have hX : ¬(abNewOf a b ^^^ s.abOld = 1 ∨ abNewOf a b ^^^ s.abOld = 2) := by
    tauto
  simp only [COUNTLIMIT] at h1
  simp only [pinChangeISR, if_neg hX, COUNTLIMIT]
  split_ifs <;> omega

/-- Witness for C2: from the initial state (criterion `0 XOR 0 = 0`, both
pins low), the invalid transition leaves the count at its value 157. -/
theorem invalid_transition_count_unchanged_inst :
    (pinChangeISR false false initSys).count = initSys.count :=
  invalid_transition_count_unchanged false false initSys
    (by norm_num [initSys, COUNTLIMIT]) (by norm_num [initSys, COUNTLIMIT])
    (by norm_num [initSys, abNewOf, pinLevel])

/-! ### The fixed-direction "up" rotation sequence -/

/-- One step of the up sequence: from encoder phase `upPhase (k % 4)`, the
pin levels `upPinsAt k` form a valid single-bit transition that increments
the count (no clamping when strictly below the limit) and advances the
phase. -/
lemma up_step (t : SysState) (k : Nat) (hab : t.abOld = upPhase (k % 4))
    (h0 : 0 ≤ t.count) (h1 : t.count < COUNTLIMIT) :
    (pinChangeISR (upPinsAt k).1 (upPinsAt k).2 t).count = t.count + 1 ∧
    (pinChangeISR (upPinsAt k).1 (upPinsAt k).2 t).abOld = upPhase ((k + 1) % 4) := by
  have hsucc : (k + 1) % 4 = (k % 4 + 1) % 4 := by omega
  have h4 : k % 4 = 0 ∨ k % 4 = 1 ∨ k % 4 = 2 ∨ k % 4 = 3 := by omega
  simp only [COUNTLIMIT] at h1
  rcases h4 with hr | hr | hr | hr
  · have hab' : t.abOld = 0 := by rw [hab, hr]; rfl
    have hpins : upPinsAt k = (true, false) := by unfold upPinsAt; rw [hr]
    have hnext : upPhase ((k + 1) % 4) = 2 := by rw [hsucc, hr]; rfl
    rw [hpins, hnext]
    simp [pinChangeISR, abNewOf, pinLevel, upMask, hab', COUNTLIMIT]
    split_ifs <;> omega
  · have hab' : t.abOld = 2 := by rw [hab, hr]; rfl
    have hpins : upPinsAt k = (true, true) := by unfold upPinsAt; rw [hr]
    have hnext : upPhase ((k + 1) % 4) = 3 := by rw [hsucc, hr]; rfl
    rw [hpins, hnext]
    simp [pinChangeISR, abNewOf, pinLevel, upMask, hab', COUNTLIMIT]
    split_ifs <;> omega
  · have hab' : t.abOld = 3 := by rw [hab, hr]; rfl
    have hpins : upPinsAt k = (false, true) := by unfold upPinsAt; rw [hr]
    have hnext : upPhase ((k + 1) % 4) = 1 := by rw [hsucc, hr]; rfl
    rw [hpins, hnext]
    simp [pinChangeISR, abNewOf, pinLevel, upMask, hab', COUNTLIMIT]
    split_ifs <;> omega
  · have hab' : t.abOld = 1 := by rw [hab, hr]; rfl
    have hpins : upPinsAt k = (false, false) := by unfold upPinsAt; rw [hr]
    have hnext : upPhase ((k + 1) % 4) = 0 := by rw [hsucc, hr]; rfl
    rw [hpins, hnext]
    simp [pinChangeISR, abNewOf, pinLevel, upMask, hab', COUNTLIMIT]
    split_ifs <;> omega

/-- Running `n` steps of the up sequence from phase 0 adds exactly `n` to
the count and lands in phase `n % 4`, as long as no clamping can occur. -/
lemma runUp_spec (s : SysState) (hab : s.abOld = 0) (h0 : 0 ≤ s.count) :
    ∀ n : Nat, s.count + n ≤ COUNTLIMIT →
      (runUp s n).count = s.count + n ∧ (runUp s n).abOld = upPhase (n % 4) := by
  intro n
  induction n with
  | zero =>
    intro _
    refine ⟨by simp [runUp], ?_⟩
    show s.abOld = upPhase (0 % 4)
    rw [hab]
    rfl
  | succ n ih =>
    intro hle
    have hle' : s.count + n ≤ COUNTLIMIT := by push_cast at hle ⊢; omega
    obtain ⟨hc, hab2⟩ := ih hle'
    have hlt : (runUp s n).count < COUNTLIMIT := by push_cast at hle ⊢; omega
    have h0' : 0 ≤ (runUp s n).count := by rw [hc]; positivity
    have hstep := up_step (runUp s n) n hab2 h0' hlt
    refine ⟨?_, ?_⟩
    · show (pinChangeISR (upPinsAt n).1 (upPinsAt n).2 (runUp s n)).count = _
      rw [hstep.1, hc]
      push_cast
      ring
    · show (pinChangeISR (upPinsAt n).1 (upPinsAt n).2 (runUp s n)).abOld = _
      rw [hstep.2]

/-- C3: feeding the decoder `n` transitions of the fixed-direction
quadrature sequence (alternating single-bit A and B changes, same rotation
direction), starting in phase 0, raises the count by exactly `n` provided
`count + n` does not exceed `COUNTLIMIT`; moreover every single transition
of the sequence raises the count by exactly one. -/
theorem up_sequence_counts (s : SysState) (n : Nat) (hab : s.abOld = 0)
    (h0 : 0 ≤ s.count) (hle : s.count + n ≤ COUNTLIMIT) :
    (runUp s n).count = s.count + n ∧
    ∀ k : Nat, k < n → (runUp s (k + 1)).count = (runUp s k).count + 1 := by
  refine ⟨(runUp_spec s hab h0 n hle).1, ?_⟩
  intro k hk
  have hk1 : s.count + (k : Int) ≤ COUNTLIMIT := by omega
  have hk2 : s.count + ((k + 1 : Nat) : Int) ≤ COUNTLIMIT := by omega
  have h1 := (runUp_spec s hab h0 (k + 1) hk2).1
  have h2 := (runUp_spec s hab h0 k hk1).1
  rw [h1, h2]
  push_cast
  ring

/-- Witness for C3: four up transitions from the initial state bring the
count from 157 to 161. -/
theorem up_sequence_counts_inst :
    (runUp initSys 4).count = initSys.count + ((4 : Nat) : Int) :=
  (up_sequence_counts initSys 4 rfl (by norm_num [initSys, COUNTLIMIT])
    (by norm_num [initSys, COUNTLIMIT])).1

/-! ### Button intents and the output stage -/

/-- C4 counterexample: with button 1 unpressed (raw level 1) and button 2
pressed (raw level 0) — only one of the two buttons pressed — the derived
forward intent is `false`, contradicting the claim that forward remains
true whenever only one of the two buttons is pressed. -/
theorem forward_single_press_cex : forwardIntent 1 0 = false := by
  norm_num [forwardIntent]

/-- C4 amended: the forward intent is true exactly when both raw levels
are 1, i.e. neither button pressed; pressing either one (or both) of
buttons 1 and 2 makes it false. -/
theorem forward_iff_both_unpressed (raw1 raw2 : Nat)
    (h1 : raw1 ≤ 1) (h2 : raw2 ≤ 1) :
    forwardIntent raw1 raw2 = true ↔ raw1 = 1 ∧ raw2 = 1 := by
  simp only [forwardIntent, decide_eq_true_eq]
  omega

/-- Witness for the amended C4: both buttons unpressed gives forward. -/
theorem forward_iff_both_unpressed_inst :
    forwardIntent 1 1 = true ↔ 1 = 1 ∧ 1 = 1 :=
  forward_iff_both_unpressed 1 1 (by norm_num) (by norm_num)

/-- C5: whenever the output stage runs (dirty flag set) with both `speed2x`
and `speedFull` true, the emitted PWM duty is the base duty doubled — the
`speed2x` branch — and (being even) can never be the `speedFull` value
1023: `speed2x` wins by the `if` / `else if` ordering. -/
theorem speed2x_precedence (s : SysState) (hd : s.pwmUpdateNeeded = true)
    (h2 : s.speed2x = true) (_hF : s.speedFull = true) :
    (outputStage s).pwmOut =
      some (truncF ((((s.count : ℚ) * 100) / ((COUNTLIMIT : Int) : ℚ) / 100) * 1023) * 2) ∧
    truncF ((((s.count : ℚ) * 100) / ((COUNTLIMIT : Int) : ℚ) / 100) * 1023) * 2 ≠ 1023 := by
  constructor
  · simp only [outputStage, hd, h2, if_pos, if_true]
  · omega

/-- Witness for C5: both speed overrides raised on the initial state — the
emitted duty is twice the base duty computed from count 157, i.e. 156,
not 1023. -/
theorem speed2x_precedence_inst :
    (outputStage { initSys with speed2x := true, speedFull := true }).pwmOut =
      some (truncF ((((initSys.count : ℚ) * 100) / ((COUNTLIMIT : Int) : ℚ) / 100) * 1023) * 2) ∧
    truncF ((((initSys.count : ℚ) * 100) / ((COUNTLIMIT : Int) : ℚ) / 100) * 1023) * 2 ≠ 1023 :=
  speed2x_precedence { initSys with speed2x := true, speedFull := true } rfl rfl rfl

/-- C8: when the dirty flag is false the output stage is a no-op — the
whole state, in particular direction pins, emitted PWM duty and stored
`dutyCycle`, is unchanged — and running it twice in a row is equally a
no-op, so the quiescent state is idempotent. -/
theorem output_stage_noop (s : SysState) (h : s.pwmUpdateNeeded = false) :
    outputStage s = s ∧ outputStage (outputStage s) = s := by
  have h1 : outputStage s = s := by
    rw [outputStage, if_neg (by simp [h])]
  exact ⟨h1, by rw [h1, h1]⟩

/-- Witness for C8: the initial state with the dirty flag lowered. -/
theorem output_stage_noop_inst :
    outputStage { initSys with pwmUpdateNeeded := false } =
      { initSys with pwmUpdateNeeded := false } ∧
    outputStage (outputStage { initSys with pwmUpdateNeeded := false }) =
      { initSys with pwmUpdateNeeded := false } :=
  output_stage_noop { initSys with pwmUpdateNeeded := false } rfl

/-! ### No reachable stop state -/

/-- The ISR leaves `stopped` alone. -/
lemma pinChangeISR_stopped (a b : Bool) (s : SysState) :
    (pinChangeISR a b s).stopped = s.stopped := rfl

/-- The ISR leaves the latched direction pins alone. -/
lemma pinChangeISR_motorPins (a b : Bool) (s : SysState) :
    (pinChangeISR a b s).motorPins = s.motorPins := rfl

/-- The output stage never assigns `stopped`. -/
lemma outputStage_stopped (s : SysState) :
    (outputStage s).stopped = s.stopped := by
  rw [outputStage]; split_ifs <;> rfl

/-- A loop iteration never assigns `stopped`. -/
lemma loopStep_stopped (b1 b2 b3 b4 : Bool) (s : SysState) :
    (loopStep b1 b2 b3 b4 s).stopped = s.stopped := by
  simp only [loopStep, outputStage_stopped]

/-- If `stopped` is false, any direction pins the output stage latches are
either forward (A LOW, B HIGH) or reverse (A HIGH, B LOW); otherwise the
pins are what they already were. -/
lemma outputStage_motorPins (s : SysState) (hstop : s.stopped = false) :
    ∀ p, (outputStage s).motorPins = some p →
      p = (false, true) ∨ p = (true, false) ∨ s.motorPins = some p := by
  intro p
  by_cases hd : s.pwmUpdateNeeded = true
  · by_cases hf : s.forward = true
    · simp only [outputStage, hd, hf, hstop, if_true, Option.some.injEq]
      rintro rfl
      simp
    · simp only [outputStage, hd, hf, hstop, if_true, Bool.false_eq_true,
        if_false, Bool.not_false, ite_true, Option.some.injEq]
      rintro rfl
      simp
  · simp only [outputStage, hd, if_false]
    intro hp
    exact Or.inr (Or.inr hp)

/-- One event preserves the "never stopped, only forward/reverse pins"
invariant. -/
lemma step_no_stop (e : Ev) (s : SysState) (hstop : s.stopped = false)
    (hpins : ∀ p, s.motorPins = some p → p = (false, true) ∨ p = (true, false)) :
    (step e s).stopped = false ∧
    ∀ p, (step e s).motorPins = some p →
      p = (false, true) ∨ p = (true, false) := by
  cases e with
  | isr a b =>
    refine ⟨?_, ?_⟩
    · rw [step, pinChangeISR_stopped, hstop]
    · intro p hp
      rw [step, pinChangeISR_motorPins] at hp
      exact hpins p hp
  | loopIter b1 b2 b3 b4 =>
    refine ⟨?_, ?_⟩
    · rw [step, loopStep_stopped, hstop]
    · intro p hp
      rw [step, loopStep] at hp
      have hstop' : (SysState.stopped
          { s with forward := forwardIntent (pinLevel b1) (pinLevel b2),
                   speed2x := speed2xIntent (pinLevel b2) (pinLevel b3),
                   speedFull := speedFullIntent (pinLevel b1) (pinLevel b4),
                   pwmUpdateNeeded := s.pwmUpdateNeeded ||
                     (forwardIntent (pinLevel b1) (pinLevel b2) != s.forward ||
                      speed2xIntent (pinLevel b2) (pinLevel b3) != s.speed2x ||
                      speedFullIntent (pinLevel b1) (pinLevel b4) != s.speedFull) }) =
          false := hstop
      rcases outputStage_motorPins _ hstop' p hp with h | h | h
      · exact Or.inl h
      · exact Or.inr h
      · exact hpins p h

/-- C9: in every state reachable from the initial state under any sequence
of interrupts and loop iterations, `stopped` is false (it is initialized
false and never assigned), and the latched motor direction pins are only
ever forward (A LOW, B HIGH) or reverse (A HIGH, B LOW): the both-pins-LOW
stop branch of the output stage is unreachable. -/
theorem no_stop_state_reachable (evs : List Ev) :
    (runSys initSys evs).stopped = false ∧
    ∀ p, (runSys initSys evs).motorPins = some p →
      p = (false, true) ∨ p = (true, false) := by
  have main : ∀ (l : List Ev) (s : SysState), s.stopped = false →
      (∀ p, s.motorPins = some p → p = (false, true) ∨ p = (true, false)) →
      (runSys s l).stopped = false ∧
      ∀ p, (runSys s l).motorPins = some p →
        p = (false, true) ∨ p = (true, false) := by
    intro l
    induction l with
    | nil => intro s h1 h2; exact ⟨h1, h2⟩
    | cons e es ih =>
      intro s h1 h2
      obtain ⟨h1', h2'⟩ := step_no_stop e s h1 h2
      exact ih _ h1' h2'
  refine main evs initSys rfl ?_
  intro p hp
  simp [initSys] at hp

/-- Witness for C9: after one loop iteration with no button pressed, the
latched pins are the forward pair, one of the two allowed states. -/
theorem no_stop_state_reachable_inst :
    ((false, true) : Bool × Bool) = (false, true) ∨
    ((false, true) : Bool × Bool) = (true, false) :=
  (no_stop_state_reachable [Ev.loopIter true true true true]).2 (false, true)
    (by norm_num [runSys, step, loopStep, outputStage, initSys, forwardIntent,
      speed2xIntent, speedFullIntent, pinLevel])

/-! ### The unclamped speed2x overflow and the initial update -/

/-- The up-sequence run touches only `abOld`, `count` and the dirty flag. -/
lemma runUp_frame (s : SysState) (n : Nat) :
    (runUp s n).forward = s.forward ∧ (runUp s n).stopped = s.stopped ∧
    (runUp s n).speed2x = s.speed2x ∧ (runUp s n).speedFull = s.speedFull ∧
    (runUp s n).dutyCycle = s.dutyCycle ∧ (runUp s n).motorPins = s.motorPins ∧
    (runUp s n).pwmOut = s.pwmOut := by
  induction n with
  | zero => exact ⟨rfl, rfl, rfl, rfl, rfl, rfl, rfl⟩
  | succ n ih =>
    have hf := pinChangeISR_frame (upPinsAt n).1 (upPinsAt n).2 (runUp s n)
    exact ⟨hf.1.trans ih.1, hf.2.1.trans ih.2.1, hf.2.2.1.trans ih.2.2.1,
      hf.2.2.2.1.trans ih.2.2.2.1, hf.2.2.2.2.1.trans ih.2.2.2.2.1,
      hf.2.2.2.2.2.1.trans ih.2.2.2.2.2.1, hf.2.2.2.2.2.2.trans ih.2.2.2.2.2.2⟩

/-- After at least one ISR invocation the dirty flag is set. -/
lemma runUp_dirty (s : SysState) (n : Nat) (h : n ≠ 0) :
    (runUp s n).pwmUpdateNeeded = true := by
  cases n with
  | zero => exact absurd rfl h
  | succ n => exact pinChangeISR_dirty _ _ _

/-- Concrete state after 1889 up transitions from the initial state: the
count has been driven from 157 all the way to the limit 2046. -/
lemma runUp_1889 :
    runUp initSys 1889 =
      { abOld := 2, count := 2046, pwmUpdateNeeded := true, forward := true,
        stopped := false, speed2x := false, speedFull := false, dutyCycle := 8,
        motorPins := none, pwmOut := none } := by
  have hspec := runUp_spec initSys rfl (by norm_num [initSys, COUNTLIMIT]) 1889
    (by norm_num [initSys, COUNTLIMIT])
  have hframe := runUp_frame initSys 1889
  have hdirty := runUp_dirty initSys 1889 (by norm_num)
  have hab : upPhase (1889 % 4) = 2 := by norm_num [upPhase]
  apply SysState.ext
  · rw [hspec.2, hab]
  · rw [hspec.1]; norm_num [initSys, COUNTLIMIT]
  · rw [hdirty]
  · rw [hframe.1]; rfl
  · rw [hframe.2.1]; rfl
  · rw [hframe.2.2.1]; rfl
  · rw [hframe.2.2.2.1]; rfl
  · rw [hframe.2.2.2.2.1]; rfl
  · rw [hframe.2.2.2.2.2.1]; rfl
  · rw [hframe.2.2.2.2.2.2]; rfl

/-- C6: the `speed2x` doubling path is not clamped to the PWM maximum:
the limit count 2046 is reachable from the initial state by encoder
rotation alone, and a loop iteration there with buttons 2 and 3 pressed
(deriving `speed2x`) passes the integer duty 2046 to the PWM output —
strictly above the resolution maximum 1023. -/
theorem speed2x_unclamped_overflow :
    ∃ n : Nat, (runUp initSys n).count = COUNTLIMIT ∧
      (loopStep true false false true (runUp initSys n)).pwmOut = some 2046 ∧
      (1023 : Int) < 2046 := by
  refine ⟨1889, ?_, ?_, by norm_num⟩
  · rw [runUp_1889]; norm_num [COUNTLIMIT]
  · rw [runUp_1889]
    norm_num [loopStep, outputStage, forwardIntent, speed2xIntent,
      speedFullIntent, pinLevel, truncF, COUNTLIMIT]

/-- C7: for the input fraction 0.1599 the display routine computes the
digit sequence 1, 5, 9, 9 through its truncating multiplications, and the
decimal dot is rendered exactly on the second digit position (index 1).
At this input the exact rational digit computation coincides with the
source's binary32 float computation: every intermediate float product
rounds within the same unit interval, so all four truncations agree. -/
theorem display_digits_1599 :
    displayDigits (1599/10000 : ℚ) = [1, 5, 9, 9] ∧
    displayRender (1599/10000 : ℚ) =
      [(1, false), (5, true), (9, false), (9, false)] := by
  have h : displayDigits (1599/10000 : ℚ) = [1, 5, 9, 9] := by
    norm_num [displayDigits, truncF]
  refine ⟨h, ?_⟩
  unfold displayRender
  simp only [h]
  rfl

/-- C10: at startup the dirty flag is true and the count is
`COUNTLIMIT / 13 = 157` by integer division, so the very first loop
iteration — even with every button unpressed — runs the output stage and
emits the PWM duty 78 derived from count 157; the recomputed duty-cycle
percentage is 15700/2046 (about 7.67), while the `dutyCycle` variable
feeding the display was separately initialized to 8.0, a different value. -/
theorem initial_update_emits_from_count :
    initSys.pwmUpdateNeeded = true ∧
    initSys.count = 157 ∧ COUNTLIMIT / 13 = 157 ∧
    (loopStep true true true true initSys).pwmOut = some 78 ∧
    (loopStep true true true true initSys).dutyCycle = 15700 / 2046 ∧
    initSys.dutyCycle = 8 ∧ (8 : ℚ) ≠ 15700 / 2046 ∧
    (767/100 : ℚ) < 15700 / 2046 ∧ (15700 / 2046 : ℚ) < 768/100 := by
  refine ⟨rfl, by norm_num [initSys, COUNTLIMIT], by norm_num [COUNTLIMIT],
    ?_, ?_, rfl, by norm_num, by norm_num, by norm_num⟩
  · norm_num [loopStep, outputStage, initSys, forwardIntent, speed2xIntent,
      speedFullIntent, pinLevel, truncF, COUNTLIMIT]
  · norm_num [loopStep, outputStage, initSys, forwardIntent, speed2xIntent,
      speedFullIntent, pinLevel, COUNTLIMIT]
